import Mathlib

/-!
Shallow embedding of the `harmonia-shortcuts` VS Code extension
(keyboard-shortcut governance).  The definitions below are translated from
the TypeScript sources:

* `src/types/keybinding.ts`   — identity derivation, key normalization
* `src/types/snapshot.ts`     — governance / snapshot data model
* `src/services/keybindingsFileService.ts` — keybindings.json mutation protocol
* `src/services/snapshotService.ts`        — bounded snapshot history
* `GovernanceService` / `ConflictService`  — decision store, conflict detector

Stateful methods become pure functions on explicit state values; the
`keybindings.json` artifact is the parsed entry list (for the mutation
protocol) or the raw string (for snapshot restore); JavaScript numbers that
only ever hold timestamps or counters are `Nat`, the 32-bit hash arithmetic
is `Int` with explicit wrapping; fallible operations return `Option` or
`Except`.
-/

namespace HarmoniaSpec

/-- JavaScript truthiness of an optional string (`undefined` and `""` are
falsy).  Used wherever the source guards an optional string with `if (x)`
or `x ? _ : _`. -/
def truthy : Option String → Bool
  | none => false
  | some s => s != ""

/-- Entry of the persisted `keybindings.json` list
(`UserKeybindingEntry` in `src/types/keybinding.ts`; the unused `args`
field is omitted — no operation under proof reads or writes it). -/
structure UserKeybindingEntry where
  key : String
  command : String
  whenClause : Option String := none
deriving DecidableEq, Repr

/-! ## KeybindingsFileService: the file-mutation protocol

`deactivateKeybinding`, `restoreKeybinding`, `remapKeybinding` and
`removeRemapEntries` each read the parsed entry list, transform it and
rewrite the whole file; we embed the list transformation. -/

/-- The negation entry appended by `KeybindingsFileService.deactivateKeybinding`
(and by `remapKeybinding` for the original key): `{key, command: "-"+command}`,
with `when` attached only when truthy (`if (when) entry.when = when`). -/
def mkNegationEntry (key command : String) (whenArg : Option String) : UserKeybindingEntry :=
  { key := key
    command := "-" ++ command
    whenClause := if truthy whenArg then whenArg else none }

/-- The positive entry appended by `KeybindingsFileService.remapKeybinding`:
`{key: newKey, command}`, with `when` attached only when truthy. -/
def mkPositiveEntry (newKey command : String) (whenArg : Option String) : UserKeybindingEntry :=
  { key := newKey
    command := command
    whenClause := if truthy whenArg then whenArg else none }

/-- `KeybindingsFileService.deactivateKeybinding`: appends a negation entry
(via `addEntry`, i.e. `push` at the end of the list). -/
def deactivateKeybinding (l : List UserKeybindingEntry) (key command : String)
    (whenArg : Option String) : List UserKeybindingEntry :=
  l ++ [mkNegationEntry key command whenArg]

/-- The exact-match predicate of `KeybindingsFileService.restoreKeybinding`'s
`findIndex`: key equal, command equal to `"-" + command`, and
`when ? kb.when === when : !kb.when`. -/
def restoreMatch (key command : String) (whenArg : Option String)
    (e : UserKeybindingEntry) : Bool :=
  e.key == key && e.command == ("-" ++ command) &&
    (if truthy whenArg then e.whenClause == whenArg else !truthy e.whenClause)

/-- Removal of the first list element satisfying `p` (`findIndex` + `splice(i,1)`);
`none` when no element matches. -/
def removeFirst (p : UserKeybindingEntry → Bool) :
    List UserKeybindingEntry → Option (List UserKeybindingEntry)
  | [] => none
  | e :: rest =>
    if p e then some rest
    else (removeFirst p rest).map (fun l => e :: l)

/-- `KeybindingsFileService.restoreKeybinding`: removes the first entry
matching `restoreMatch` and rewrites the file (`some newList`); returns
`none` (TS `false`, no write) when no entry matches. -/
def restoreKeybinding (l : List UserKeybindingEntry) (key command : String)
    (whenArg : Option String) : Option (List UserKeybindingEntry) :=
  removeFirst (restoreMatch key command whenArg) l

/-- The keep-predicate of `KeybindingsFileService.remapKeybinding`'s cleanup
filter: `!isNegation && !isPositive`, keeping entries whose command is
neither `"-"+command` nor `command`. -/
def remapKeep (command : String) (e : UserKeybindingEntry) : Bool :=
  !(e.command == ("-" ++ command)) && !(e.command == command)

/-- `KeybindingsFileService.remapKeybinding`: filters out every entry
referencing the command (negation or positive), then pushes the negation
entry for the original key followed by the new positive entry. -/
def remapKeybinding (l : List UserKeybindingEntry) (originalKey newKey command : String)
    (whenArg : Option String) : List UserKeybindingEntry :=
  (l.filter (remapKeep command)) ++
    [mkNegationEntry originalKey command whenArg, mkPositiveEntry newKey command whenArg]

/-- `KeybindingsFileService.removeRemapEntries`: drops every entry whose
command equals `command` or `"-"+command`; `none` (TS `false`) when nothing
was removed, otherwise the rewritten list. -/
def removeRemapEntries (l : List UserKeybindingEntry) (command : String) :
    Option (List UserKeybindingEntry) :=
  let filtered := l.filter (fun e => e.command != ("-" ++ command) && e.command != command)
  if filtered.length < l.length then some filtered else none

/-! ## Identity derivation and key normalization (`src/types/keybinding.ts`) -/

/-- Wrap an integer to JavaScript's signed 32-bit range, as `x | 0` /
`x & x` does. -/
def toInt32 (n : Int) : Int :=
  (n + 2147483648) % 4294967296 - 2147483648

/-- One step of the rolling hash in `generateKeybindingId`:
`hash = ((hash << 5) - hash) + char; hash = hash & hash`.  `<<` wraps its
result to 32 bits; the subsequent subtraction and addition are exact; the
final `& hash` wraps again. -/
def hashStep (h : Int) (c : Nat) : Int :=
  toInt32 (toInt32 (h * 32) - h + c)

/-- The rolling hash of `generateKeybindingId` over a string.  `charCodeAt`
yields a UTF-16 code unit; for characters of the Basic Multilingual Plane
(every key, command and when-clause in scope is ASCII) that equals the code
point `Char.toNat`. -/
def hashString (s : String) : Int :=
  s.toList.foldl (fun h c => hashStep h c.toNat) 0

/-- JavaScript `n.toString(16)` for a non-negative integer: lowercase
hexadecimal digits. -/
def natToHex (n : Nat) : String :=
  String.mk (Nat.toDigits 16 n)

/-- `generateKeybindingId` from `src/types/keybinding.ts`: hashes
`key + "|" + command + "|" + (when ?? "")`, then
`Math.abs(hash).toString(16).padStart(8, "0").substring(0, 16)`. -/
def generateKeybindingId (key command : String) (whenArg : Option String) : String :=
  let input := key ++ "|" ++ command ++ "|" ++ whenArg.getD ""
  let hex := natToHex (hashString input).natAbs
  let padded := String.mk (List.replicate (8 - hex.length) '0') ++ hex
  String.mk (padded.toList.take 16)

/-- The private `generateKeybindingId` re-implemented inside
`AuditPanelProvider` (used when applying an import): identical hash but
without the `padStart(8, "0")` step. -/
def generateKeybindingIdPanel (key command : String) (whenArg : Option String) : String :=
  let input := key ++ "|" ++ command ++ "|" ++ whenArg.getD ""
  let hex := natToHex (hashString input).natAbs
  String.mk (hex.toList.take 16)

/-- Lexicographic comparison of char lists by code point — the order
JavaScript's default `Array.prototype.sort` uses on strings (UTF-16 code
units; identical to code points on the BMP). -/
def charListLt : List Char → List Char → Bool
  | [], [] => false
  | [], _ :: _ => true
  | _ :: _, [] => false
  | a :: as, b :: bs =>
    if a.toNat < b.toNat then true
    else if b.toNat < a.toNat then false
    else charListLt as bs

/-- JavaScript `a < b` on strings. -/
def jsStrLt (a b : String) : Bool :=
  charListLt a.toList b.toList

/-- Insert into an ascending list for `Array.prototype.sort` (equal strings
are indistinguishable, so stability is moot). -/
def insertAsc (x : String) : List String → List String
  | [] => [x]
  | y :: ys => if jsStrLt y x then y :: insertAsc x ys else x :: y :: ys

/-- Ascending sort of a string list (JavaScript default `sort`). -/
def sortStrings (l : List String) : List String :=
  l.foldr insertAsc []

/-- JavaScript `String.prototype.toLowerCase`, character-wise (ASCII — every
key combination in scope is ASCII). -/
def jsToLower (s : String) : String :=
  String.mk (s.toList.map Char.toLower)

/-- JavaScript `String.prototype.trim` (ASCII whitespace). -/
def jsTrim (s : String) : String :=
  String.mk (((s.toList.dropWhile Char.isWhitespace).reverse.dropWhile Char.isWhitespace).reverse)

/-- Split a char list at every occurrence of a single separator character
(JavaScript `String.prototype.split(c)`). -/
def splitChar (sep : Char) : List Char → List (List Char)
  | [] => [[]]
  | c :: rest =>
    let r := splitChar sep rest
    if c = sep then [] :: r
    else match r with
      | [] => [[c]]
      | hd :: tl => (c :: hd) :: tl

/-- JavaScript `s.split(c)` returning strings. -/
def jsSplit (sep : Char) (s : String) : List String :=
  (splitChar sep s.toList).map String.mk

/-- Join a list of strings with a separator (JavaScript `Array.prototype.join`). -/
def joinSep (sep : String) : List String → String
  | [] => ""
  | [x] => x
  | x :: y :: rest => x ++ sep ++ joinSep sep (y :: rest)

/-- `normalizeKey` from `src/types/keybinding.ts`:
`key.toLowerCase().split('+').map(part => part.trim()).sort().join('+')`. -/
def normalizeKey (key : String) : String :=
  joinSep "+" (sortStrings ((jsSplit '+' (jsToLower key)).map jsTrim))

/-! ## ConflictService (unnamed source file, `detectConflicts` etc.) -/

/-- Source of a keybinding (`KeybindingSource` in `src/types/keybinding.ts`). -/
inductive KeybindingSource where
  | user
  | extension
  | dflt
deriving DecidableEq, Repr

/-- The `Keybinding` record (fields not read by any operation under proof —
`extensionName`, platform overrides, `args` — are omitted). -/
structure Keybinding where
  id : String
  key : String
  command : String
  whenClause : Option String := none
  source : KeybindingSource
  extensionId : Option String := none
deriving DecidableEq, Repr

/-- A detected conflict group (`KeybindingConflict`). -/
structure KeybindingConflict where
  key : String
  bindings : List Keybinding
  involvesUserBinding : Bool
deriving DecidableEq, Repr

/-- Split a char list at every occurrence of `"&&"`.  The source splits on
the regex `/\s*&&\s*/` and then trims every part; since the parts are
trimmed anyway, splitting on the literal `"&&"` yields the same parts after
trimming. -/
def splitAmpAmp : List Char → List (List Char)
  | [] => [[]]
  | '&' :: '&' :: rest => [] :: splitAmpAmp rest
  | c :: rest =>
    match splitAmpAmp rest with
    | [] => [[c]]
    | hd :: tl => (c :: hd) :: tl

/-- Split a char list at every occurrence of `"=="`
(JavaScript `s.split('==')`). -/
def splitEqEq : List Char → List (List Char)
  | [] => [[]]
  | '=' :: '=' :: rest => [] :: splitEqEq rest
  | c :: rest =>
    match splitEqEq rest with
    | [] => [[c]]
    | hd :: tl => (c :: hd) :: tl

/-- `Map.prototype.set`: replace the value of an existing key in place, else
append the pair. -/
def mapSet (m : List (String × Bool)) (k : String) (v : Bool) : List (String × Bool) :=
  match m with
  | [] => [(k, v)]
  | (k', v') :: rest => if k' = k then (k', v) :: rest else (k', v') :: mapSet rest k v

/-- `Map.prototype.get` on the association-list model. -/
def mapGet (m : List (String × Bool)) (k : String) : Option Bool :=
  (m.find? (fun p => p.1 == k)).map (fun p => p.2)

/-- Record one trimmed conjunct of a when-clause into the condition map
(`ConflictService.parseWhenConditions` loop body): `!flag` sets `false`,
`a == b` sets `a` to `(b == "true")` (both sides trimmed), a bare flag sets
`true`. -/
def recordCondition (m : List (String × Bool)) (trimmed : String) : List (String × Bool) :=
  match trimmed.toList with
  | '!' :: rest => mapSet m (String.mk rest) false
  | _ =>
    let parts := (splitEqEq trimmed.toList).map (fun cs => jsTrim (String.mk cs))
    match parts with
    | _ :: [] => mapSet m trimmed true
    | k :: v :: _ => mapSet m k (v == "true")
    | [] => mapSet m trimmed true

/-- `ConflictService.parseWhenConditions`: split the when-clause on `&&`,
trim each part, and record each conjunct. -/
def parseWhenConditions (whenStr : String) : List (String × Bool) :=
  let parts := (splitAmpAmp whenStr.toList).map (fun cs => jsTrim (String.mk cs))
  parts.foldl recordCondition []

/-- `ConflictService.contextsOverlap`: absent (falsy) contexts overlap with
anything; otherwise the two condition maps must not assign different values
to a shared key. -/
def contextsOverlap (when1 when2 : Option String) : Bool :=
  if !truthy when1 || !truthy when2 then true
  else
    let conditions1 := parseWhenConditions (when1.getD "")
    let conditions2 := parseWhenConditions (when2.getD "")
    conditions1.all (fun p =>
      match mapGet conditions2 p.1 with
      | some v => v == p.2
      | none => true)

/-- One seeding round of `ConflictService.groupByContext`, driven by fuel:
the first unassigned binding seeds a group and absorbs every later
unassigned binding whose context overlaps the seed's (absorbed members are
not re-checked against each other).  Each round removes at least the seed,
so fuel `bs.length` always suffices; the `0` case is unreachable at the
fuel `groupByContext` supplies. -/
def groupRounds : Nat → List Keybinding → List (List Keybinding)
  | 0, _ => []
  | _, [] => []
  | fuel + 1, b :: rest =>
    let overlapping := rest.filter (fun x => contextsOverlap b.whenClause x.whenClause)
    let remaining := rest.filter (fun x => !contextsOverlap b.whenClause x.whenClause)
    (b :: overlapping) :: groupRounds fuel remaining

/-- `ConflictService.groupByContext`. -/
def groupByContext (bindings : List Keybinding) : List (List Keybinding) :=
  groupRounds bindings.length bindings

/-- Insertion into the normalized-key bucket map of
`ConflictService.detectConflicts` (a JavaScript `Map<string, Keybinding[]>`:
an existing bucket is extended in place, a new key is appended, and
iteration follows key-insertion order). -/
def bucketInsert (m : List (String × List Keybinding)) (k : String) (b : Keybinding) :
    List (String × List Keybinding) :=
  match m with
  | [] => [(k, [b])]
  | (k', bs) :: rest =>
    if k' = k then (k', bs ++ [b]) :: rest
    else (k', bs) :: bucketInsert rest k b

/-- The normalized-key bucket map over all bindings in arrival order. -/
def buildKeyMap (bindings : List Keybinding) : List (String × List Keybinding) :=
  bindings.foldl (fun m b => bucketInsert m (normalizeKey b.key) b) []

/-- `ConflictService.detectConflicts`: user bindings before extension
bindings, bucket by normalized key, context-group each bucket of size ≥ 2,
and emit each context group of size ≥ 2 with `key` the first member's raw
key and `involvesUserBinding` whether any member is user-source. -/
def detectConflicts (userBindings extensionBindings : List Keybinding) :
    List KeybindingConflict :=
  let allBindings := userBindings ++ extensionBindings
  let keyMap := buildKeyMap allBindings
  keyMap.flatMap (fun p =>
    if p.2.length > 1 then
      (groupByContext p.2).filterMap (fun g =>
        match g with
        | g0 :: _ :: _ =>
          some { key := g0.key
                 bindings := g
                 involvesUserBinding := g.any (fun b => b.source == .user) }
        | _ => none)
    else [])

/-! ## Governance state store (`GovernanceService`, `src/types/snapshot.ts`) -/

/-- Governance status (`GovernanceStatus`). -/
inductive GovernanceStatus where
  | pending
  | approved
  | deactivated
  | remapped
  | skipped
deriving DecidableEq, Repr

/-- A stored governance decision (`GovernanceDecision`). -/
structure GovernanceDecision where
  keybindingId : String
  status : GovernanceStatus
  originalKey : Option String := none
  remappedKey : Option String := none
  decidedAt : Nat
  extensionId : Option String := none
deriving DecidableEq, Repr

/-- The persisted governance state (`GovernanceState`); the `decisions` and
`extensionVersions` objects become association lists in property-insertion
order (JavaScript object semantics: assigning to an existing key replaces
its value in place, a new key is appended). -/
structure GovernanceState where
  version : Nat
  decisions : List (String × GovernanceDecision)
  extensionVersions : List (String × String)
  initialAuditComplete : Bool
  lastUpdated : Nat
deriving DecidableEq, Repr

/-- `createEmptyGovernanceState` from `src/types/snapshot.ts`. -/
def createEmptyGovernanceState (now : Nat) : GovernanceState :=
  { version := 1
    decisions := []
    extensionVersions := []
    initialAuditComplete := false
    lastUpdated := now }

/-- JavaScript `obj[k] = v` on the decisions object: replace in place or
append. -/
def insertDecision (ds : List (String × GovernanceDecision)) (k : String)
    (d : GovernanceDecision) : List (String × GovernanceDecision) :=
  match ds with
  | [] => [(k, d)]
  | (k', d') :: rest =>
    if k' = k then (k', d) :: rest
    else (k', d') :: insertDecision rest k d

/-- JavaScript `obj[k]` lookup on the decisions object. -/
def findDecision : List (String × GovernanceDecision) → String → Option GovernanceDecision
  | [], _ => none
  | (k', d) :: rest, k => if k' = k then some d else findDecision rest k

/-- `GovernanceService.getStatus`: the stored decision's status, defaulting
to `pending` (`this.state.decisions[id]?.status ?? 'pending'`) — a pure
read of the state. -/
def getStatus (st : GovernanceState) (keybindingId : String) : GovernanceStatus :=
  ((findDecision st.decisions keybindingId).map (fun d => d.status)).getD .pending

/-- The decision record built by `GovernanceService.recordDecision`:
`originalKey`/`remappedKey` are attached only under
`status === 'remapped' && remappedKey` (the argument must be truthy). -/
def mkDecision (kb : Keybinding) (status : GovernanceStatus)
    (remappedKey : Option String) (now : Nat) : GovernanceDecision :=
  if status = .remapped && truthy remappedKey then
    { keybindingId := kb.id
      status := status
      decidedAt := now
      extensionId := kb.extensionId
      originalKey := some kb.key
      remappedKey := remappedKey }
  else
    { keybindingId := kb.id
      status := status
      decidedAt := now
      extensionId := kb.extensionId }

/-- `GovernanceService.recordDecision`: stores the decision under the
binding's id and saves the state (`saveState` refreshes `lastUpdated`).
The method performs no check on the binding's `source`. -/
def recordDecision (st : GovernanceState) (kb : Keybinding)
    (status : GovernanceStatus) (remappedKey : Option String) (now : Nat) :
    GovernanceState :=
  { st with
    decisions := insertDecision st.decisions kb.id (mkDecision kb status remappedKey now)
    lastUpdated := now }

/-- The combined (governance state, keybindings.json list) system state
threaded through compound actions. -/
structure SysState where
  gov : GovernanceState
  file : List UserKeybindingEntry
deriving DecidableEq, Repr

/-- `GovernanceService.applyDecision`: `deactivate` appends the negation
entry then records `deactivated`; `remap` with a truthy new key rewrites
the remap entries then records `remapped`; any other combination does
nothing. -/
def applyDecision (st : SysState) (kb : Keybinding) (action : String)
    (newKey : Option String) (now : Nat) : SysState :=
  if action = "deactivate" then
    { gov := recordDecision st.gov kb .deactivated none now
      file := deactivateKeybinding st.file kb.key kb.command kb.whenClause }
  else if action = "remap" && truthy newKey then
    { gov := recordDecision st.gov kb .remapped newKey now
      file := remapKeybinding st.file kb.key (newKey.getD "") kb.command kb.whenClause }
  else st

/-- One entry of an import payload (`AuditPanelProvider`, `importShortcuts`
message handler): each field may be missing. -/
structure ImportShortcut where
  key : Option String := none
  command : Option String := none
  whenClause : Option String := none
  status : Option String := none
  remappedKey : Option String := none
  extensionId : Option String := none
  extensionName : Option String := none
deriving DecidableEq, Repr

/-- The keybinding object the import handler constructs from a backup
entry: the id comes from the panel's own hash and the source is always
`'extension'`. -/
def importBinding (s : ImportShortcut) : Keybinding :=
  { id := generateKeybindingIdPanel (s.key.getD "") (s.command.getD "") s.whenClause
    key := s.key.getD ""
    command := s.command.getD ""
    whenClause := s.whenClause
    source := .extension
    extensionId := s.extensionId }

/-- One iteration of the import-application loop: entries missing a truthy
`key`, `command` or `status` are skipped; `deactivated` and
`remapped`-with-key go through `applyDecision`; `approved` and `skipped`
are recorded directly; `pending` and unknown statuses change nothing. -/
def importStep (st : SysState) (s : ImportShortcut) (now : Nat) : SysState :=
  if !truthy s.key || !truthy s.command || !truthy s.status then st
  else
    let kb := importBinding s
    if s.status == some "deactivated" then
      applyDecision st kb "deactivate" none now
    else if s.status == some "remapped" && truthy s.remappedKey then
      applyDecision st kb "remap" s.remappedKey now
    else if s.status == some "approved" then
      { st with gov := recordDecision st.gov kb .approved none now }
    else if s.status == some "skipped" then
      { st with gov := recordDecision st.gov kb .skipped none now }
    else st

/-- The import-application loop over a backup's flattened shortcut list. -/
def importRun (st : SysState) (shortcuts : List ImportShortcut) (now : Nat) : SysState :=
  shortcuts.foldl (fun acc s => importStep acc s now) st

/-! ## Snapshot manager (`src/services/snapshotService.ts`) -/

/-- A stored snapshot (`Snapshot` in `src/types/snapshot.ts`). -/
structure Snapshot where
  id : String
  name : String
  createdAt : Nat
  keybindingsContent : String
  governanceState : GovernanceState
deriving DecidableEq, Repr

/-- Insertion into a list sorted by descending `createdAt`
(`SnapshotService.getSnapshots` sorts with `(a, b) => b.createdAt - a.createdAt`;
ties cannot arise for the distinct timestamps under proof). -/
def insertByCreatedAtDesc (s : Snapshot) : List Snapshot → List Snapshot
  | [] => [s]
  | t :: ts =>
    if s.createdAt > t.createdAt then s :: t :: ts
    else t :: insertByCreatedAtDesc s ts

/-- `SnapshotService.getSnapshots`: the stored list sorted newest-first. -/
def sortSnapshots (l : List Snapshot) : List Snapshot :=
  l.foldr insertByCreatedAtDesc []

/-- `findIndex(s => s.name === 'Base Snapshot')` followed by `splice(i, 1)`:
the first Base snapshot (if any) and the list without it. -/
def extractBase : List Snapshot → Option Snapshot × List Snapshot
  | [] => (none, [])
  | s :: rest =>
    if s.name = "Base Snapshot" then (some s, rest)
    else
      let r := extractBase rest
      (r.1, s :: r.2)

/-- `MAX_SNAPSHOTS` from `src/services/snapshotService.ts`. -/
def MAX_SNAPSHOTS : Nat := 10

/-- `SnapshotService.saveSnapshot`: sort the stored list, splice out the
Base snapshot if present, unshift the new snapshot, truncate to
`MAX_SNAPSHOTS - (base ? 1 : 0)` entries when over that bound, then push
the Base snapshot back at the tail. -/
def saveSnapshot (stored : List Snapshot) (snap : Snapshot) : List Snapshot :=
  match extractBase (sortSnapshots stored) with
  | (some base, rest) =>
    (if (snap :: rest).length > MAX_SNAPSHOTS - 1
     then (snap :: rest).take (MAX_SNAPSHOTS - 1)
     else snap :: rest) ++ [base]
  | (none, _) =>
    if (snap :: sortSnapshots stored).length > MAX_SNAPSHOTS
    then (snap :: sortSnapshots stored).take MAX_SNAPSHOTS
    else snap :: sortSnapshots stored

/-- `SnapshotService.createSnapshot`: capture the current raw file content
and a copy of the governance state under a fresh id and timestamp, and save
it.  The random `generateSnapshotId` value is passed in as `idStr`. -/
def createSnapshot (stored : List Snapshot) (idStr name : String)
    (governanceState : GovernanceState) (content : String) (now : Nat) :
    List Snapshot :=
  saveSnapshot stored
    { id := idStr
      name := name
      createdAt := now
      keybindingsContent := content
      governanceState := governanceState }

/-! ## Comment-tolerant parsing (`KeybindingsFileService.parseKeybindings`)

`stripJsonComments` is embedded verbatim from the source's per-character
loop.  `JSON.parse` and `JSON.stringify(v, null, 2)` are host primitives,
not repository code; they are modelled from the ECMA JSON grammar below,
with one simplification: numeric literals are carried as their lexeme
string instead of a float (no claim inspects a numeric value, and every
concrete input under proof is float-exact). -/

/-- A JSON value.  `num` keeps the literal's lexeme; `obj` keeps members in
property-insertion order with duplicate keys collapsing onto the first
occurrence (JavaScript object semantics). -/
inductive Json where
  | null : Json
  | boolean : Bool → Json
  | num : String → Json
  | str : String → Json
  | arr : List Json → Json
  | obj : List (String × Json) → Json
deriving Repr

/-- The character loop of `KeybindingsFileService.stripJsonComments`,
faithfully: `prev` is `content[i-1]` (string-escape check), the second
pattern element is `content[i+1]` (comment-delimiter lookahead), and the
three state flags are tested in the source's order.  When a two-character
delimiter is consumed the loop's `i++` makes the following iteration's
`content[i-1]` the delimiter's second character. -/
def stripCore : List Char → Option Char → Bool → Bool → Bool → List Char
  | [], _, _, _, _ => []
  | [c], _, inString, inLineComment, inBlockComment =>
    if inString then [c]
    else if inLineComment then (if c = '\n' then [c] else [])
    else if inBlockComment then []
    else [c]
  | c :: nx :: rest, prev, inString, inLineComment, inBlockComment =>
    if inString then
      c :: stripCore (nx :: rest) (some c)
        (!(c == '"' && prev != some '\\')) inLineComment inBlockComment
    else if inLineComment then
      if c = '\n' then c :: stripCore (nx :: rest) (some c) inString false inBlockComment
      else stripCore (nx :: rest) (some c) inString inLineComment inBlockComment
    else if inBlockComment then
      if c = '*' ∧ nx = '/' then stripCore rest (some nx) inString inLineComment false
      else stripCore (nx :: rest) (some c) inString inLineComment inBlockComment
    else
      if c = '"' then c :: stripCore (nx :: rest) (some c) true inLineComment inBlockComment
      else if c = '/' ∧ nx = '/' then stripCore rest (some nx) inString true inBlockComment
      else if c = '/' ∧ nx = '*' then stripCore rest (some nx) inString inLineComment true
      else c :: stripCore (nx :: rest) (some c) inString inLineComment inBlockComment

/-- `KeybindingsFileService.stripJsonComments`. -/
def stripJsonComments (content : String) : String :=
  String.mk (stripCore content.toList none false false false)

/-- JSON insignificant whitespace (space, tab, line feed, carriage return). -/
def skipJsonWs : List Char → List Char
  | [] => []
  | c :: rest =>
    if c = ' ' ∨ c = '\t' ∨ c = '\n' ∨ c = '\r' then skipJsonWs rest
    else c :: rest

/-- Value of a hexadecimal digit character. -/
def hexVal (c : Char) : Option Nat :=
  if 48 ≤ c.toNat ∧ c.toNat ≤ 57 then some (c.toNat - 48)
  else if 97 ≤ c.toNat ∧ c.toNat ≤ 102 then some (c.toNat - 87)
  else if 65 ≤ c.toNat ∧ c.toNat ≤ 70 then some (c.toNat - 55)
  else none

/-- Body of a JSON string literal after its opening quote: ECMA-404 escape
sequences, raw control characters rejected.  (A `\\u` escape denoting a lone
surrogate is out of scope — no input under proof contains one.) -/
def parseStringBody (fuel : Nat) (cs : List Char) (acc : List Char) :
    Option (String × List Char) :=
  match fuel, cs with
  | 0, _ => none
  | _, [] => none
  | fuel + 1, c :: rest =>
    if c = '"' then some (String.mk acc.reverse, rest)
    else if c = '\\' then
      match rest with
      | [] => none
      | e :: rest2 =>
        if e = '"' then parseStringBody fuel rest2 ('"' :: acc)
        else if e = '\\' then parseStringBody fuel rest2 ('\\' :: acc)
        else if e = '/' then parseStringBody fuel rest2 ('/' :: acc)
        else if e = 'b' then parseStringBody fuel rest2 (Char.ofNat 8 :: acc)
        else if e = 'f' then parseStringBody fuel rest2 (Char.ofNat 12 :: acc)
        else if e = 'n' then parseStringBody fuel rest2 ('\n' :: acc)
        else if e = 'r' then parseStringBody fuel rest2 ('\r' :: acc)
        else if e = 't' then parseStringBody fuel rest2 ('\t' :: acc)
        else if e = 'u' then
          match rest2 with
          | h1 :: h2 :: h3 :: h4 :: rest3 =>
            match hexVal h1, hexVal h2, hexVal h3, hexVal h4 with
            | some a, some b, some c2, some d =>
              parseStringBody fuel rest3 (Char.ofNat (((a * 16 + b) * 16 + c2) * 16 + d) :: acc)
            | _, _, _, _ => none
          | _ => none
        else none
    else if c.toNat < 32 then none
    else parseStringBody fuel rest (c :: acc)

/-- Longest digit run at the head of the input. -/
def takeDigits : List Char → List Char × List Char
  | [] => ([], [])
  | c :: rest =>
    if c.isDigit then
      let r := takeDigits rest
      (c :: r.1, r.2)
    else ([], c :: rest)

/-- Optional fraction part of a JSON number. -/
def parseFracPart : List Char → Option (List Char × List Char)
  | '.' :: r =>
    let p := takeDigits r
    if p.1.isEmpty then none else some ('.' :: p.1, p.2)
  | cs => some ([], cs)

/-- Optional exponent part of a JSON number. -/
def parseExpPart : List Char → Option (List Char × List Char)
  | [] => some ([], [])
  | c :: r =>
    if c = 'e' ∨ c = 'E' then
      let q := match r with
        | s :: r2 => if s = '+' ∨ s = '-' then ([s], r2) else (([] : List Char), r)
        | [] => ([], ([] : List Char))
      let p := takeDigits q.2
      if p.1.isEmpty then none else some (c :: (q.1 ++ p.1), p.2)
    else some ([], c :: r)

/-- Unsigned JSON number: `0` or a digit run without a leading zero, then
optional fraction and exponent; the lexeme and the remaining input. -/
def parseNumberCore (cs : List Char) : Option (List Char × List Char) :=
  match cs with
  | [] => none
  | c :: r =>
    let ip : Option (List Char × List Char) :=
      if c = '0' then some (['0'], r)
      else if c.isDigit then some (takeDigits (c :: r))
      else none
    match ip with
    | none => none
    | some (intPart, rest1) =>
      match parseFracPart rest1 with
      | none => none
      | some (fracPart, rest2) =>
        match parseExpPart rest2 with
        | none => none
        | some (expPart, rest3) => some (intPart ++ fracPart ++ expPart, rest3)

/-- JSON number with optional leading minus sign. -/
def parseNumberLex (cs : List Char) : Option (List Char × List Char) :=
  match cs with
  | '-' :: r => (parseNumberCore r).map (fun p => ('-' :: p.1, p.2))
  | _ => parseNumberCore cs

/-- JavaScript `obj[k] = v` while building an object literal: a duplicate
key keeps its first position and takes the later value. -/
def objInsert (m : List (String × Json)) (k : String) (v : Json) : List (String × Json) :=
  match m with
  | [] => [(k, v)]
  | (k', v') :: rest => if k' = k then (k', v) :: rest else (k', v') :: objInsert rest k v

mutual

/-- Modelled from the spec: `JSON.parse` (host primitive absent from the
repository), as a fuelled recursive-descent parser of the ECMA-404 value
grammar.  Every recursive call consumes input before recursing again, so
fuel `2 * length + 2` (supplied by `jsonParse`) never runs out. -/
def parseVal : Nat → List Char → Option (Json × List Char)
  | 0, _ => none
  | fuel + 1, cs =>
    match skipJsonWs cs with
    | 'n' :: 'u' :: 'l' :: 'l' :: rest => some (.null, rest)
    | 't' :: 'r' :: 'u' :: 'e' :: rest => some (.boolean true, rest)
    | 'f' :: 'a' :: 'l' :: 's' :: 'e' :: rest => some (.boolean false, rest)
    | '"' :: rest => (parseStringBody (rest.length + 1) rest []).map (fun p => (.str p.1, p.2))
    | '[' :: rest =>
      (match skipJsonWs rest with
       | ']' :: rest2 => some (.arr [], rest2)
       | cs2 => parseElems fuel cs2 [])
    | '\x7b' :: rest =>
      (match skipJsonWs rest with
       | '\x7d' :: rest2 => some (.obj [], rest2)
       | cs2 => parseMembers fuel cs2 [])
    | cs2 =>
      match parseNumberLex cs2 with
      | some (lex, rest) => some (.num (String.mk lex), rest)
      | none => none

/-- Comma-separated array elements up to the closing bracket. -/
def parseElems : Nat → List Char → List Json → Option (Json × List Char)
  | 0, _, _ => none
  | fuel + 1, cs, acc =>
    match parseVal fuel cs with
    | none => none
    | some (v, rest) =>
      match skipJsonWs rest with
      | ',' :: rest2 => parseElems fuel rest2 (acc ++ [v])
      | ']' :: rest2 => some (.arr (acc ++ [v]), rest2)
      | _ => none

/-- Comma-separated object members up to the closing brace. -/
def parseMembers : Nat → List Char → List (String × Json) → Option (Json × List Char)
  | 0, _, _ => none
  | fuel + 1, cs, acc =>
    match skipJsonWs cs with
    | '"' :: rest =>
      (match parseStringBody (rest.length + 1) rest [] with
       | none => none
       | some (k, rest2) =>
         match skipJsonWs rest2 with
         | ':' :: rest3 =>
           (match parseVal fuel rest3 with
            | none => none
            | some (v, rest4) =>
              match skipJsonWs rest4 with
              | ',' :: rest5 => parseMembers fuel rest5 (objInsert acc k v)
              | '\x7d' :: rest5 => some (.obj (objInsert acc k v), rest5)
              | _ => none)
         | _ => none)
    | _ => none

end

/-- Modelled from the spec: the behaviour of `JSON.parse` on a whole
string — parse one value surrounded by optional whitespace; `none` is the
thrown `SyntaxError`. -/
def jsonParse (s : String) : Option Json :=
  match parseVal (2 * s.length + 2) s.toList with
  | some (v, rest) => if (skipJsonWs rest).isEmpty then some v else none
  | none => none

/-- Hexadecimal digit character (lowercase). -/
def hexDigitChar (n : Nat) : Char :=
  if n < 10 then Char.ofNat (48 + n) else Char.ofNat (87 + n)

/-- Escaping of one character inside a serialized JSON string
(`QuoteJSONString`). -/
def escapeJsonChar (c : Char) : List Char :=
  if c = '"' then ['\\', '"']
  else if c = '\\' then ['\\', '\\']
  else if c = Char.ofNat 8 then ['\\', 'b']
  else if c = Char.ofNat 12 then ['\\', 'f']
  else if c = '\n' then ['\\', 'n']
  else if c = '\r' then ['\\', 'r']
  else if c = '\t' then ['\\', 't']
  else if c.toNat < 32 then
    ['\\', 'u', '0', '0', hexDigitChar (c.toNat / 16), hexDigitChar (c.toNat % 16)]
  else [c]

/-- A serialized JSON string literal. -/
def quoteJsonString (s : String) : String :=
  "\"" ++ String.mk (s.toList.map escapeJsonChar).flatten ++ "\""

mutual

/-- Modelled from the spec: `JSON.stringify(v, null, 2)` (host primitive
absent from the repository) at nesting indentation `ind` — the
`SerializeJSON*` algorithms with a two-space gap.  A `num` serializes as
its stored lexeme (exact for every lexeme `ToString` would reproduce; no
claim under proof serializes a number). -/
def stringifyVal : Json → String → String
  | .null, _ => "null"
  | .boolean b, _ => if b then "true" else "false"
  | .num lex, _ => lex
  | .str s, _ => quoteJsonString s
  | .arr [], _ => "[]"
  | .arr (x :: xs), ind =>
    "[\n" ++ stringifyElems (x :: xs) (ind ++ "  ") ++ "\n" ++ ind ++ "]"
  | .obj [], _ => "\x7b\x7d"
  | .obj (kv :: kvs), ind =>
    "\x7b\n" ++ stringifyPairs (kv :: kvs) (ind ++ "  ") ++ "\n" ++ ind ++ "\x7d"

/-- Indented, comma-separated serialization of array elements. -/
def stringifyElems : List Json → String → String
  | [], _ => ""
  | [x], ind => ind ++ stringifyVal x ind
  | x :: y :: rest, ind =>
    ind ++ stringifyVal x ind ++ ",\n" ++ stringifyElems (y :: rest) ind

/-- Indented, comma-separated serialization of object members. -/
def stringifyPairs : List (String × Json) → String → String
  | [], _ => ""
  | [(k, v)], ind => ind ++ quoteJsonString k ++ ": " ++ stringifyVal v ind
  | (k, v) :: p :: rest, ind =>
    ind ++ quoteJsonString k ++ ": " ++ stringifyVal v ind ++ ",\n" ++
      stringifyPairs (p :: rest) ind

end

/-- `JSON.stringify(v, null, 2)` at top level. -/
def jsonStringify2 (v : Json) : String :=
  stringifyVal v ""

/-- `KeybindingsFileService.parseKeybindings`: strip comments, `JSON.parse`,
return the elements when the result is an array; any parse failure or
non-array result degrades to the empty list (`try`/`catch`). -/
def parseKeybindings (content : String) : List Json :=
  match jsonParse (stripJsonComments content) with
  | some (.arr xs) => xs
  | _ => []

/-- `SnapshotService.restoreSnapshot` over the stored snapshot list and the
current raw file content: `undefined` (`none`) when the id is absent;
otherwise `JSON.parse` the captured content (a thrown `SyntaxError`
propagates, modelled as `.error`, and nothing is written) and rewrite the
file as `JSON.stringify(parsedArray, null, 2)` (an array-valued parse keeps
its elements, any other value is replaced by `[]`), returning the stored
governance state for the caller to install. -/
def restoreSnapshot (snaps : List Snapshot) (fileContent : String) (snapshotId : String) :
    Except Unit (Option GovernanceState × String) :=
  match (sortSnapshots snaps).find? (fun s => s.id == snapshotId) with
  | none => .ok (none, fileContent)
  | some s =>
    match jsonParse s.keybindingsContent with
    | none => .error ()
    | some parsed =>
      .ok (some s.governanceState,
        jsonStringify2 (.arr (match parsed with | .arr xs => xs | _ => [])))

/-! ## Concrete scenarios referenced by the theorems below -/

/-- An empty governance state captured at time 0. -/
def gov0 : GovernanceState := createEmptyGovernanceState 0

/-- The automatically created Base snapshot (oldest entry of the store). -/
def baseSnap : Snapshot :=
  { id := "base"
    name := "Base Snapshot"
    createdAt := 0
    keybindingsContent := "[]"
    governanceState := gov0 }

/-- Twelve named snapshot creations (strictly increasing timestamps)
against a store that already holds the Base snapshot. -/
def twelveCreations : List Snapshot :=
  (List.range 12).foldl
    (fun st i => createSnapshot st (toString i) ("snap" ++ toString i) gov0 "[]" (i + 1))
    [baseSnap]

/-- A snapshot whose captured raw content is the JSON array `"[ ]"` —
valid JSON, but not in the pretty-printed form `write` produces. -/
def snapSpaced : Snapshot :=
  { id := "s1"
    name := "spaced"
    createdAt := 1
    keybindingsContent := "[ ]"
    governanceState := gov0 }

/-- A user-source binding. -/
def userKb : Keybinding :=
  { id := "uid1", key := "ctrl+k", command := "cmd.user", source := .user }

/-- An extension-source binding. -/
def extKb : Keybinding :=
  { id := "eid1", key := "ctrl+m", command := "cmd.ext", source := .extension,
    extensionId := some "pub.ext" }

/-- User and extension bindings on the same key without contexts
(the conflict example of the specification). -/
def confUser : Keybinding :=
  { id := "u", key := "ctrl+k", command := "foo", source := .user }

/-- Extension half of the context-free conflict example. -/
def confExt : Keybinding :=
  { id := "e", key := "ctrl+k", command := "bar", source := .extension }

/-- User half of the disjoint-context example (`editorTextFocus`). -/
def confUserCtx : Keybinding :=
  { id := "u", key := "ctrl+k", command := "foo",
    whenClause := some "editorTextFocus", source := .user }

/-- Extension half of the disjoint-context example (`!editorTextFocus`). -/
def confExtCtx : Keybinding :=
  { id := "e", key := "ctrl+k", command := "bar",
    whenClause := some "!editorTextFocus", source := .extension }

/-- A keybindings.json list that already contains the exact negation entry
`deactivateKeybinding` is about to append. -/
def dupNegList : List UserKeybindingEntry :=
  [mkNegationEntry "k" "c" none, { key := "x", command := "y" }]

/-- The configuration content that defeats `stripJsonComments`: a JSON
array whose first string ends in an escaped backslash and whose second
string contains `//`. -/
def trickyContent : String := "[\"a\\\\\",\"b//x\"]"

/-- The decision `recordDecision` stores when called with status
`remapped` but no remapped key. -/
def remappedNoKeyDecision : GovernanceDecision := mkDecision extKb .remapped none 7

/-- A well-formed import entry carrying an `approved` status. -/
def shortcutA : ImportShortcut :=
  { key := some "k", command := some "c", status := some "approved" }

/-- The empty system state (empty governance state, empty file). -/
def sysState0 : SysState := { gov := gov0, file := [] }

/-- Binding whose key contains the `|` separator that `generateKeybindingId`
uses unescaped. -/
def collideKb1 : Keybinding :=
  { id := generateKeybindingId "a|b" "c" none, key := "a|b", command := "c",
    source := .extension }

/-- A different binding whose identity collides with `collideKb1`'s: the
`|`-adjacent substring moved from the key into the command. -/
def collideKb2 : Keybinding :=
  { id := generateKeybindingId "a" "b|c" none, key := "a", command := "b|c",
    source := .extension }

/-! ## Helper lemmas -/

/-- Looking a key up after a JavaScript-object insertion: the inserted key
maps to the new decision, every other key is unaffected. -/
theorem findDecision_insertDecision (ds : List (String × GovernanceDecision))
    (k : String) (d : GovernanceDecision) (k' : String) :
    findDecision (insertDecision ds k d) k' =
      if k' = k then some d else findDecision ds k' := by
  induction ds with
  | nil =>
    by_cases h : k' = k
    · subst h; simp [insertDecision, findDecision]
    · have h' : ¬(k = k') := fun he => h he.symm
      simp [insertDecision, findDecision, h, h']
  | cons hd tl ih =>
    obtain ⟨k0, d0⟩ := hd
    by_cases h1 : k0 = k <;> by_cases h2 : k0 = k' <;> by_cases h3 : k' = k <;>
      simp_all [insertDecision, findDecision]

/-- Effect of `recordDecision` on a later lookup. -/
theorem findDecision_recordDecision (st : GovernanceState) (kb : Keybinding)
    (status : GovernanceStatus) (rk : Option String) (now : Nat) (id : String) :
    findDecision (recordDecision st kb status rk now).decisions id =
      if id = kb.id then some (mkDecision kb status rk now)
      else findDecision st.decisions id := by
  simp [recordDecision, findDecision_insertDecision]

/-- A decision looked up after `applyDecision` was either present before or
sits under the acted-on binding's id. -/
theorem findDecision_applyDecision (st : SysState) (kb : Keybinding)
    (action : String) (newKey : Option String) (now : Nat) (id : String)
    (d : GovernanceDecision)
    (h : findDecision (applyDecision st kb action newKey now).gov.decisions id = some d) :
    findDecision st.gov.decisions id = some d ∨ id = kb.id := by
  unfold applyDecision at h
  split_ifs at h with h1 h2
  · rw [findDecision_recordDecision] at h
    split_ifs at h with h3
    · exact Or.inr h3
    · exact Or.inl h
  · rw [findDecision_recordDecision] at h
    split_ifs at h with h3
    · exact Or.inr h3
    · exact Or.inl h
  · exact Or.inl h

/-- A decision looked up after one import-loop iteration was either present
before or sits under the id of the (extension-source) binding the iteration
constructed. -/
theorem findDecision_importStep (st : SysState) (s : ImportShortcut) (now : Nat)
    (id : String) (d : GovernanceDecision)
    (h : findDecision (importStep st s now).gov.decisions id = some d) :
    findDecision st.gov.decisions id = some d ∨ id = (importBinding s).id := by
  unfold importStep at h
  split_ifs at h with h1 h2 h3 h4 h5
  · exact Or.inl h
  · exact findDecision_applyDecision _ _ _ _ _ _ _ h
  · exact findDecision_applyDecision _ _ _ _ _ _ _ h
  · rw [findDecision_recordDecision] at h
    split_ifs at h with h6
    · exact Or.inr h6
    · exact Or.inl h
  · rw [findDecision_recordDecision] at h
    split_ifs at h with h6
    · exact Or.inr h6
    · exact Or.inl h
  · exact Or.inl h

/-! ## Claim theorems -/

/-- C8.  For every governance state and every identity with no recorded
decision, `getStatus` returns `pending`; the method is a pure read of the
state (its embedding consumes the state without producing one), so it
creates no decision entry. -/
theorem getStatus_unknown_id_pending (st : GovernanceState) (id : String)
    (h : findDecision st.decisions id = none) : getStatus st id = .pending := by
  simp [getStatus, h]

/-- Witness for C8 at the empty state and an unknown id. -/
theorem getStatus_unknown_id_pending_witness : getStatus gov0 "unknown" = .pending :=
  getStatus_unknown_id_pending gov0 "unknown" rfl

/-- C10.  Identity derivation is not injective: an absent when-clause and
the empty-string when-clause hash identically, and moving a `|`-adjacent
substring between the key and the command fields preserves the hashed
input `key + "|" + command + "|" + when`; two distinct bindings built from
such colliding triples therefore occupy a single decision slot. -/
theorem generateKeybindingId_not_injective :
    generateKeybindingId "a" "b" none = generateKeybindingId "a" "b" (some "") ∧
    (some "" : Option String) ≠ none ∧
    generateKeybindingId "a|b" "c" none = generateKeybindingId "a" "b|c" none ∧
    collideKb1 ≠ collideKb2 ∧ collideKb1.id = collideKb2.id ∧
    (recordDecision (recordDecision gov0 collideKb1 .approved none 1)
        collideKb2 .skipped none 2).decisions.length = 1 := by
  refine ⟨rfl, by decide, rfl, by decide, by decide, by decide⟩

/-- C3 counterexample.  `recordDecision` performs no source check: invoked
on a user-source binding it stores a decision for it — nothing is rejected
before the write. -/
theorem recordDecision_stores_user_source :
    userKb.source = .user ∧
    findDecision (recordDecision gov0 userKb .approved none 5).decisions userKb.id =
      some (mkDecision userKb .approved none 5) := by
  exact ⟨rfl, by decide⟩

/-- C3 amended.  The decisions map only ever acquires entries for
extension-source bindings along the repository's call paths because every
call site constructs or filters extension-source bindings; for the import
application: any decision present after an import run was either present
before or is keyed by the id of a binding the run constructed, and every
such binding has source `'extension'`. -/
theorem importRun_decisions_extension_only (shortcuts : List ImportShortcut)
    (st : SysState) (now : Nat) (id : String) (d : GovernanceDecision)
    (h : findDecision (importRun st shortcuts now).gov.decisions id = some d) :
    findDecision st.gov.decisions id = some d ∨
      ∃ s ∈ shortcuts, id = (importBinding s).id ∧
        (importBinding s).source = .extension := by
  induction shortcuts generalizing st with
  | nil => exact Or.inl h
  | cons s rest ih =>
    have h' : findDecision (importRun (importStep st s now) rest now).gov.decisions id
        = some d := h
    rcases ih (importStep st s now) h' with h2 | ⟨s', hs', hid⟩
    · rcases findDecision_importStep st s now id d h2 with h3 | h3
      · exact Or.inl h3
      · exact Or.inr ⟨s, List.mem_cons_self s rest, h3, rfl⟩
    · exact Or.inr ⟨s', List.mem_cons_of_mem s hs', hid⟩

/-- Witness for the amended C3 at a one-entry import into the empty state:
the import stores the decision, and the binding whose id carries it has
source `'extension'`. -/
theorem importRun_decisions_extension_only_witness :
    (importBinding shortcutA).source = .extension ∧
    findDecision (importRun sysState0 [shortcutA] 3).gov.decisions
        (importBinding shortcutA).id =
      some (mkDecision (importBinding shortcutA) .approved none 3) := by
  have h := importRun_decisions_extension_only [shortcutA] sysState0 3
    (importBinding shortcutA).id
    (mkDecision (importBinding shortcutA) .approved none 3) (by decide)
  refine ⟨?_, by decide⟩
  rcases h with h | ⟨s, hs, _, hsrc⟩
  · exact absurd h (by decide)
  · have hsa : s = shortcutA := by simpa using hs
    subst hsa
    exact hsrc

/-- C4 counterexample.  `recordDecision` called with status `remapped` but
no remapped key stores a decision whose status is `remapped` while both
`originalKey` and `remappedKey` are absent, so `status = remapped` does not
imply the two fields are present. -/
theorem recordDecision_remapped_without_fields :
    findDecision (recordDecision gov0 extKb .remapped none 7).decisions extKb.id =
      some remappedNoKeyDecision ∧
    remappedNoKeyDecision.status = .remapped ∧
    remappedNoKeyDecision.originalKey = none ∧
    remappedNoKeyDecision.remappedKey = none := by
  refine ⟨by decide, by decide, by decide, by decide⟩

/-- C4 amended.  A decision stored by `recordDecision` carries
`originalKey`/`remappedKey` exactly when it was recorded with status
`remapped` together with a truthy `remappedKey` argument, in which case
`originalKey` is the binding's key at decision time and `remappedKey` is
the argument. -/
theorem recordDecision_remap_field_characterization (st : GovernanceState)
    (kb : Keybinding) (status : GovernanceStatus) (rk : Option String) (now : Nat)
    (d : GovernanceDecision)
    (h : findDecision (recordDecision st kb status rk now).decisions kb.id = some d) :
    ((d.originalKey.isSome || d.remappedKey.isSome) = true ↔
      (status = .remapped ∧ truthy rk = true)) ∧
    (status = .remapped → truthy rk = true →
      d.originalKey = some kb.key ∧ d.remappedKey = rk ∧ d.status = .remapped) := by
  rw [findDecision_recordDecision] at h
  simp at h
  subst h
  unfold mkDecision
  by_cases h1 : status = GovernanceStatus.remapped <;> by_cases h2 : truthy rk = true <;>
    simp_all

/-- Witness for the amended C4 at an `approved` decision: neither remap
field is present. -/
theorem recordDecision_remap_field_characterization_witness :
    ((mkDecision extKb .approved none 1).originalKey.isSome ||
      (mkDecision extKb .approved none 1).remappedKey.isSome) = false := by
  have h := (recordDecision_remap_field_characterization gov0 extKb .approved none 1
    (mkDecision extKb .approved none 1) (by decide)).1
  simpa using h

/-- A command with the negation marker prepended never equals the bare
command (the lengths differ). -/
theorem neg_command_ne (c : String) : ("-" ++ c) ≠ c := by
  intro h
  have hlen := congrArg String.length h
  rw [String.length_append] at hlen
  have h1 : ("-" : String).length = 1 := rfl
  omega

/-- Filtering twice with one predicate equals filtering once. -/
theorem filter_idem {α : Type} (p : α → Bool) (l : List α) :
    (l.filter p).filter p = l.filter p := by
  induction l with
  | nil => rfl
  | cons x xs ih => by_cases h : p x = true <;> simp [List.filter, h, ih]

/-- C5.  `remapKeybinding` removes every entry referencing the command and
appends the negation and positive entries; hence two consecutive remaps of
the same command collapse to the effect of the second alone, leaving
exactly one negation entry (keyed by the second original key) and exactly
one positive entry (keyed by the second new key) for the command. -/
theorem remapKeybinding_twice (l : List UserKeybindingEntry)
    (o1 n1 o2 n2 c : String) (w1 w2 : Option String) :
    remapKeybinding (remapKeybinding l o1 n1 c w1) o2 n2 c w2 =
      l.filter (remapKeep c) ++
        [mkNegationEntry o2 c w2, mkPositiveEntry n2 c w2] ∧
    (remapKeybinding (remapKeybinding l o1 n1 c w1) o2 n2 c w2).countP
        (fun e => e.command == ("-" ++ c)) = 1 ∧
    (remapKeybinding (remapKeybinding l o1 n1 c w1) o2 n2 c w2).countP
        (fun e => e.command == c) = 1 := by
  have hfilter_pair : List.filter (remapKeep c)
      [mkNegationEntry o1 c w1, mkPositiveEntry n1 c w1] = [] := by
    simp [List.filter, remapKeep, mkNegationEntry, mkPositiveEntry]
  have hstruct : remapKeybinding (remapKeybinding l o1 n1 c w1) o2 n2 c w2 =
      l.filter (remapKeep c) ++
        [mkNegationEntry o2 c w2, mkPositiveEntry n2 c w2] := by
    unfold remapKeybinding
    rw [List.filter_append, filter_idem, hfilter_pair, List.append_nil]
  have hzero_neg : (l.filter (remapKeep c)).countP
      (fun e => e.command == ("-" ++ c)) = 0 := by
    rw [List.countP_eq_zero]
    intro a ha
    have := (List.mem_filter.mp ha).2
    simp [remapKeep] at this
    simp [this.1]
  have hzero_pos : (l.filter (remapKeep c)).countP
      (fun e => e.command == c) = 0 := by
    rw [List.countP_eq_zero]
    intro a ha
    have := (List.mem_filter.mp ha).2
    simp [remapKeep] at this
    simp [this.2]
  refine ⟨hstruct, ?_, ?_⟩
  · rw [hstruct, List.countP_append, hzero_neg]
    simp [mkNegationEntry, mkPositiveEntry, List.countP_cons]
    intro h
    exact absurd h.symm (neg_command_ne c)
  · rw [hstruct, List.countP_append, hzero_pos]
    simp [mkNegationEntry, mkPositiveEntry, List.countP_cons]
    intro h
    exact absurd h (neg_command_ne c)

/-- The negation entry appended by `deactivateKeybinding` matches
`restoreKeybinding`'s predicate for the same arguments. -/
theorem restoreMatch_mkNegationEntry (k c : String) (w : Option String) :
    restoreMatch k c w (mkNegationEntry k c w) = true := by
  cases w with
  | none => simp [restoreMatch, mkNegationEntry, truthy]
  | some s =>
    by_cases h : s = ""
    · subst h; simp [restoreMatch, mkNegationEntry, truthy]
    · simp [restoreMatch, mkNegationEntry, truthy, h]

/-- When no earlier element matches, removing the first match from
`l ++ [e]` (with `e` matching) removes exactly the appended element. -/
theorem removeFirst_append_of_none (p : UserKeybindingEntry → Bool)
    (l : List UserKeybindingEntry) (e : UserKeybindingEntry)
    (hl : ∀ x ∈ l, p x = false) (he : p e = true) :
    removeFirst p (l ++ [e]) = some l := by
  induction l with
  | nil => simp [removeFirst, he]
  | cons x xs ih =>
    have hx := hl x (List.mem_cons_self x xs)
    have ih' := ih (fun y hy => hl y (List.mem_cons_of_mem x hy))
    simp [removeFirst, hx, ih']

/-- Removing the first match succeeds whenever the appended element
matches. -/
theorem removeFirst_append_isSome (p : UserKeybindingEntry → Bool)
    (l : List UserKeybindingEntry) (e : UserKeybindingEntry) (he : p e = true) :
    (removeFirst p (l ++ [e])).isSome = true := by
  induction l with
  | nil => simp [removeFirst, he]
  | cons x xs ih =>
    by_cases h : p x = true <;> simp [removeFirst, h, ih]

/-- C6 counterexample.  When the prior list already contains an exactly
matching negation entry, `restoreKeybinding` right after
`deactivateKeybinding` removes the pre-existing entry (the first match),
not the appended one: the result is a reordering of the prior list, not
the prior list. -/
theorem restore_after_deactivate_reorders :
    restoreKeybinding (deactivateKeybinding dupNegList "k" "c" none) "k" "c" none =
      some [{ key := "x", command := "y" }, mkNegationEntry "k" "c" none] ∧
    ([{ key := "x", command := "y" }, mkNegationEntry "k" "c" none] :
        List UserKeybindingEntry) ≠ dupNegList := by
  refine ⟨by decide, by decide⟩

/-- C6 amended.  `restoreKeybinding` immediately after
`deactivateKeybinding` with identical arguments always reports found, and
it removes the first exactly matching negation entry; the configuration
list returns to its prior content provided the prior list contained no
entry matching the restore predicate (otherwise the earlier match is
removed and the appended negation stays at the tail). -/
theorem restore_after_deactivate (l : List UserKeybindingEntry) (k c : String)
    (w : Option String) :
    (restoreKeybinding (deactivateKeybinding l k c w) k c w).isSome = true ∧
    ((∀ e ∈ l, restoreMatch k c w e = false) →
      restoreKeybinding (deactivateKeybinding l k c w) k c w = some l) := by
  constructor
  · exact removeFirst_append_isSome _ _ _ (restoreMatch_mkNegationEntry k c w)
  · intro h
    exact removeFirst_append_of_none _ _ _ h (restoreMatch_mkNegationEntry k c w)

/-- Witness for the amended C6 on the empty configuration list. -/
theorem restore_after_deactivate_witness :
    restoreKeybinding (deactivateKeybinding [] "a" "b" none) "a" "b" none = some [] :=
  (restore_after_deactivate [] "a" "b" none).2 (by simp)

/-- Membership is preserved by descending insertion. -/
theorem mem_insertByCreatedAtDesc (x s : Snapshot) (l : List Snapshot) :
    x ∈ insertByCreatedAtDesc s l ↔ x = s ∨ x ∈ l := by
  induction l with
  | nil => simp [insertByCreatedAtDesc]
  | cons t ts ih =>
    by_cases h : s.createdAt > t.createdAt
    · simp [insertByCreatedAtDesc, h]
    · simp [insertByCreatedAtDesc, h, ih]
      tauto

/-- Sorting the stored snapshot list permutes it: membership is unchanged. -/
theorem mem_sortSnapshots (x : Snapshot) (l : List Snapshot) :
    x ∈ sortSnapshots l ↔ x ∈ l := by
  induction l with
  | nil => simp [sortSnapshots]
  | cons t ts ih =>
    simp only [sortSnapshots, List.foldr] at ih ⊢
    rw [mem_insertByCreatedAtDesc, ih, List.mem_cons]

/-- When the list holds a Base snapshot, `extractBase` returns one (the
first). -/
theorem extractBase_of_mem (l : List Snapshot)
    (h : ∃ b ∈ l, b.name = "Base Snapshot") :
    ∃ b r, extractBase l = (some b, r) ∧ b.name = "Base Snapshot" := by
  induction l with
  | nil => simp at h
  | cons s rest ih =>
    by_cases hs : s.name = "Base Snapshot"
    · exact ⟨s, rest, by simp [extractBase, hs], hs⟩
    · obtain ⟨b, hb, hbn⟩ := h
      rcases List.mem_cons.mp hb with rfl | hb2
      · exact absurd hbn hs
      · obtain ⟨b', r', heq, hbn'⟩ := ih ⟨b, hb2, hbn⟩
        exact ⟨b', s :: r', by simp [extractBase, hs, heq], hbn'⟩

/-- C1 counterexample.  Creating 12 named snapshots in a store already
holding the Base snapshot retains 10 snapshots in total — 9 non-Base plus
the Base snapshot — not the 11 the claim states; the Base snapshot is
still present. -/
theorem twelve_creations_keep_ten :
    twelveCreations.length = 10 ∧
    twelveCreations.countP (fun s => s.name != "Base Snapshot") = 9 ∧
    baseSnap ∈ twelveCreations ∧
    twelveCreations.length ≠ 11 := by
  refine ⟨by decide, by decide, by decide, by decide⟩

/-- C1 amended.  When the Base snapshot is present it counts toward the
`MAX_SNAPSHOTS = 10` cap, so `saveSnapshot` keeps at most 9 non-Base
snapshots (10 total); the Base snapshot itself is never evicted.  After 12
named creations on a store holding Base, exactly 9 non-Base plus Base
remain. -/
theorem saveSnapshot_base_kept_bound (stored : List Snapshot) (snap : Snapshot)
    (h : ∃ b ∈ stored, b.name = "Base Snapshot") :
    (∃ b ∈ saveSnapshot stored snap, b.name = "Base Snapshot") ∧
    (saveSnapshot stored snap).countP (fun s => s.name != "Base Snapshot") ≤
      MAX_SNAPSHOTS - 1 := by
  have hsorted : ∃ b ∈ sortSnapshots stored, b.name = "Base Snapshot" := by
    obtain ⟨b, hb, hbn⟩ := h
    exact ⟨b, (mem_sortSnapshots b stored).mpr hb, hbn⟩
  obtain ⟨b, r, heq, hbn⟩ := extractBase_of_mem _ hsorted
  have hgoal : saveSnapshot stored snap =
      (if (snap :: r).length > MAX_SNAPSHOTS - 1
       then (snap :: r).take (MAX_SNAPSHOTS - 1) else snap :: r) ++ [b] := by
    unfold saveSnapshot
    rw [heq]
  rw [hgoal]
  generalize hl2 : (if (snap :: r).length > MAX_SNAPSHOTS - 1
    then (snap :: r).take (MAX_SNAPSHOTS - 1) else snap :: r) = l2
  have hlen : l2.length ≤ MAX_SNAPSHOTS - 1 := by
    rw [← hl2]
    split_ifs with hc
    · exact List.length_take_le _ _
    · omega
  constructor
  · exact ⟨b, List.mem_append_right l2 (List.mem_singleton.mpr rfl), hbn⟩
  · rw [List.countP_append]
    have hb0 : List.countP (fun s => s.name != "Base Snapshot") [b] = 0 := by
      simp [List.countP_cons, hbn]
    rw [hb0]
    have := List.countP_le_length (p := fun s => s.name != "Base Snapshot") (l := l2)
    omega

/-- Witness for the amended C1: saving one more snapshot onto the
12-creation store keeps Base and at most 9 non-Base snapshots. -/
theorem saveSnapshot_base_kept_bound_witness :
    (saveSnapshot twelveCreations snapSpaced).countP
        (fun s => s.name != "Base Snapshot") ≤ MAX_SNAPSHOTS - 1 ∧
    (saveSnapshot twelveCreations snapSpaced).any
        (fun s => s.name == "Base Snapshot") = true :=
  ⟨(saveSnapshot_base_kept_bound twelveCreations snapSpaced
      ⟨baseSnap, by decide, rfl⟩).2, by decide⟩

/-- C2 counterexample.  Restoring a present snapshot does not overwrite the
configuration artifact with the captured content byte-for-byte: the content
`"[ ]"` is rewritten as `"[]"` (the parse-then-pretty-print of `write`). -/
theorem restoreSnapshot_not_verbatim :
    restoreSnapshot [snapSpaced] "[ ]" "s1" = .ok (some gov0, "[]") ∧
    snapSpaced.keybindingsContent = "[ ]" ∧
    ("[]" : String) ≠ "[ ]" := by
  refine ⟨rfl, rfl, by decide⟩

/-- C2 amended.  `restoreSnapshot` returns `undefined` and leaves the
artifact untouched when the id is absent; for a present id it returns the
stored governance state without touching the governance store (the
operation's embedding produces no governance state beyond the returned
value) and rewrites the artifact with the 2-space pretty-printed
serialization of the parsed captured content — not the captured bytes —
while a captured content that is not valid JSON makes the restore throw
before any write. -/
theorem restoreSnapshot_characterization (snaps : List Snapshot) (file id : String) :
    ((∀ s ∈ snaps, s.id ≠ id) → restoreSnapshot snaps file id = .ok (none, file)) ∧
    (∀ s, (sortSnapshots snaps).find? (fun t => t.id == id) = some s →
      (jsonParse s.keybindingsContent = none →
        restoreSnapshot snaps file id = .error ()) ∧
      (∀ xs, jsonParse s.keybindingsContent = some (.arr xs) →
        restoreSnapshot snaps file id =
          .ok (some s.governanceState, jsonStringify2 (.arr xs)))) := by
  constructor
  · intro h
    have hfind : (sortSnapshots snaps).find? (fun t => t.id == id) = none := by
      rw [List.find?_eq_none]
      intro x hx
      have hne := h x ((mem_sortSnapshots x snaps).mp hx)
      simp [hne]
    unfold restoreSnapshot
    rw [hfind]
  · intro s hs
    constructor
    · intro hp
      unfold restoreSnapshot
      rw [hs]
      simp [hp]
    · intro xs hp
      unfold restoreSnapshot
      rw [hs]
      simp [hp]

/-- Witness for the amended C2: an absent id leaves the file unchanged, a
present id rewrites the parsed-empty content as the serialized empty
array. -/
theorem restoreSnapshot_characterization_witness :
    restoreSnapshot [snapSpaced] "f" "zz" = .ok (none, "f") ∧
    restoreSnapshot [snapSpaced] "f" "s1" =
      .ok (some snapSpaced.governanceState, jsonStringify2 (.arr [])) :=
  ⟨(restoreSnapshot_characterization [snapSpaced] "f" "zz").1 (by decide),
   ((restoreSnapshot_characterization [snapSpaced] "f" "s1").2 snapSpaced
      (by decide)).2 [] rfl⟩

/-- Bucket-map invariant: inserting a binding under its normalized key
preserves "every binding in a bucket has the bucket's key". -/
theorem bucketInsert_inv (m : List (String × List Keybinding)) (k : String)
    (b : Keybinding)
    (hm : ∀ p ∈ m, ∀ x ∈ p.2, normalizeKey x.key = p.1)
    (hb : normalizeKey b.key = k) :
    ∀ p ∈ bucketInsert m k b, ∀ x ∈ p.2, normalizeKey x.key = p.1 := by
  induction m with
  | nil =>
    intro p hp x hx
    simp [bucketInsert] at hp
    subst hp
    simp at hx
    subst hx
    exact hb
  | cons q m' ih =>
    obtain ⟨k0, bs0⟩ := q
    intro p hp x hx
    by_cases h : k0 = k
    · subst h
      simp [bucketInsert] at hp
      rcases hp with rfl | hp2
      · rcases List.mem_append.mp hx with h1 | h1
        · exact hm (k0, bs0) (List.mem_cons_self _ _) x h1
        · simp at h1
          subst h1
          exact hb
      · exact hm p (List.mem_cons_of_mem _ hp2) x hx
    · simp [bucketInsert, h] at hp
      rcases hp with rfl | hp2
      · exact hm (k0, bs0) (List.mem_cons_self _ _) x hx
      · exact ih (fun q hq => hm q (List.mem_cons_of_mem _ hq)) p hp2 x hx

/-- Every binding in a bucket of the key map has that bucket's normalized
key. -/
theorem buildKeyMap_inv (bs : List Keybinding) :
    ∀ p ∈ buildKeyMap bs, ∀ x ∈ p.2, normalizeKey x.key = p.1 := by
  suffices h : ∀ (l : List Keybinding) (m : List (String × List Keybinding)),
      (∀ p ∈ m, ∀ x ∈ p.2, normalizeKey x.key = p.1) →
      ∀ p ∈ l.foldl (fun m b => bucketInsert m (normalizeKey b.key) b) m,
        ∀ x ∈ p.2, normalizeKey x.key = p.1 by
    exact h bs [] (by simp)
  intro l
  induction l with
  | nil => intro m hm; simpa using hm
  | cons b rest ih =>
    intro m hm
    exact ih _ (bucketInsert_inv m _ b hm rfl)

/-- Every group produced by the seeding rounds is non-empty and drawn from
the processed bucket. -/
theorem groupRounds_mem (fuel : Nat) (bs g : List Keybinding)
    (hg : g ∈ groupRounds fuel bs) :
    g ≠ [] ∧ ∀ x ∈ g, x ∈ bs := by
  induction fuel generalizing bs with
  | zero => simp [groupRounds] at hg
  | succ fuel ih =>
    cases bs with
    | nil => simp [groupRounds] at hg
    | cons b rest =>
      simp only [groupRounds, List.mem_cons] at hg
      rcases hg with rfl | hg2
      · refine ⟨by simp, ?_⟩
        intro x hx
        rcases List.mem_cons.mp hx with rfl | hx2
        · exact List.mem_cons_self _ _
        · exact List.mem_cons_of_mem _ (List.mem_filter.mp hx2).1
      · obtain ⟨hne, hsub⟩ := ih _ hg2
        exact ⟨hne, fun x hx =>
          List.mem_cons_of_mem _ (List.mem_filter.mp (hsub x hx)).1⟩

/-- C7.  `detectConflicts` on the specification's examples: the context-free
user/extension pair on `ctrl+k` yields exactly one group with
`involvesUserBinding`, the `editorTextFocus`/`!editorTextFocus` pair yields
none; and in general every emitted group has at least two members, its
`involvesUserBinding` flag is exactly "some member is user-source", and all
members share the group's normalized key (bucket-then-seed construction). -/
theorem detectConflicts_spec :
    detectConflicts [confUser] [confExt] =
      [{ key := "ctrl+k", bindings := [confUser, confExt],
         involvesUserBinding := true }] ∧
    detectConflicts [confUserCtx] [confExtCtx] = [] ∧
    ∀ (userBs extBs : List Keybinding) (c : KeybindingConflict),
      c ∈ detectConflicts userBs extBs →
        2 ≤ c.bindings.length ∧
        c.involvesUserBinding = c.bindings.any (fun b => b.source == .user) ∧
        ∀ b ∈ c.bindings, normalizeKey b.key = normalizeKey c.key := by
  refine ⟨by decide, by decide, ?_⟩
  intro userBs extBs c hc
  unfold detectConflicts at hc
  rw [List.mem_flatMap] at hc
  obtain ⟨p, hp, hcp⟩ := hc
  by_cases hlen : p.2.length > 1
  · rw [if_pos hlen, List.mem_filterMap] at hcp
    obtain ⟨g, hg, hmk⟩ := hcp
    cases g with
    | nil => simp at hmk
    | cons g0 gt =>
      cases gt with
      | nil => simp at hmk
      | cons g1 grest =>
        simp only [Option.some.injEq] at hmk
        subst hmk
        have hmem : g0 :: g1 :: grest ∈ groupRounds p.2.length p.2 := by
          simpa [groupByContext] using hg
        obtain ⟨hne, hsub⟩ := groupRounds_mem _ _ _ hmem
        have hinv := buildKeyMap_inv (userBs ++ extBs) p hp
        refine ⟨by simp, rfl, ?_⟩
        intro b hb
        have h1 : normalizeKey b.key = p.1 := hinv b (hsub b hb)
        have h2 : normalizeKey g0.key = p.1 :=
          hinv g0 (hsub g0 (List.mem_cons_self _ _))
        simpa [h1] using h2.symm
  · simp [hlen] at hcp

/-- Witness for C7's general part at the context-free example conflict. -/
theorem detectConflicts_spec_witness :
    2 ≤ ({ key := "ctrl+k", bindings := [confUser, confExt],
           involvesUserBinding := true } : KeybindingConflict).bindings.length ∧
    normalizeKey confUser.key = normalizeKey "ctrl+k" := by
  have h := detectConflicts_spec.2.2 [confUser] [confExt]
    { key := "ctrl+k", bindings := [confUser, confExt], involvesUserBinding := true }
    (by decide)
  exact ⟨h.1, h.2.2 confUser (by decide)⟩

/-- On input free of slashes and backslashes the stripper is the identity,
whatever string state it starts in (the previous character must not be a
backslash, as holds on every reachable call). -/
theorem stripCore_id_of_no_slash (cs : List Char) (prev : Option Char)
    (inString : Bool) (hprev : prev ≠ some '\\')
    (h : ∀ c ∈ cs, c ≠ '/' ∧ c ≠ '\\') :
    stripCore cs prev inString false false = cs := by
  induction cs generalizing prev inString with
  | nil => rfl
  | cons c tail ih =>
    have hc := h c (List.mem_cons_self c tail)
    have htail : ∀ x ∈ tail, x ≠ '/' ∧ x ≠ '\\' :=
      fun x hx => h x (List.mem_cons_of_mem c hx)
    have hcprev : (some c : Option Char) ≠ some '\\' := by
      simp [hc.2]
    cases tail with
    | nil =>
      cases inString <;> simp [stripCore]
    | cons nx rest =>
      cases inString with
      | true =>
        simp only [stripCore]
        rw [ih (some c) (!(c == '"' && prev != some '\\')) hcprev htail]
        simp
      | false =>
        by_cases hq : c = '"'
        · subst hq
          simp only [stripCore]
          rw [ih (some '"') true (by simp) htail]
          simp
        · have h1 : ¬(c = '/' ∧ nx = '/') := fun hcc => hc.1 hcc.1
          have h2 : ¬(c = '/' ∧ nx = '*') := fun hcc => hc.1 hcc.1
          simp only [stripCore]
          rw [ih (some c) false hcprev htail]
          simp [hq, h1, h2]

/-- `stripJsonComments` leaves any content without `/` and `\` characters
unchanged, so such content parses exactly as `JSON.parse` would parse it. -/
theorem stripJsonComments_id_of_no_slash (s : String)
    (h : ∀ c ∈ s.toList, c ≠ '/' ∧ c ≠ '\\') :
    stripJsonComments s = s := by
  unfold stripJsonComments
  rw [stripCore_id_of_no_slash s.toList none false (by simp) h]
  cases s
  rfl

/-- C9.  Evaluation at the failing input: `["a\\","b//x"]` is a valid JSON
array (no comments), yet `stripJsonComments`'s escape check inspects only
one preceding character, so the closing quote after the escaped backslash
is missed, `//x` inside the second string literal is stripped as a line
comment, and `parseKeybindings` degrades to the empty list instead of the
two-element array. -/
theorem parseKeybindings_mangles_escaped_backslash :
    jsonParse trickyContent = some (.arr [.str "a\\", .str "b//x"]) ∧
    stripJsonComments trickyContent = "[\"a\\\\\",\"b" ∧
    parseKeybindings trickyContent = [] := by
  refine ⟨rfl, by decide, rfl⟩

end HarmoniaSpec
